import Mathlib

/-!
# LakeSnes Android front end: pacing loop, audio/video hand-off, ROM loading

A shallow embedding of `app/src/main/cpp/emulator_jni.cpp`.

* The global `glb` record becomes the structure `Glb`.  Pointers are kept as
  "null / non-null" (`Bool` or `Option`), since the code only ever tests them.
* The loop of `emulatorLoop` is embedded twice.  `pacingLoop32`, `loopIteration32` and
  `emulatorLoop32` follow the arithmetic of the code: `timeAdder`, `seconds` and
  `wantedFrames` are binary32 `float`s, additions and subtractions round to nearest even
  and the loop test is made in `double`.  `pacingLoop`, `loopIteration` and `emulatorLoop`
  are the same loop read in exact arithmetic (rationals, `0.002` as `1/500`,
  `1.0 / 60.0` as `1/60`); they carry the statements about the order and number of calls,
  which do not depend on the arithmetic (`loopIteration32_calls`), and the statements made
  for exact arithmetic.
* The field `wantedFrames` of `Glb` keeps the exact quotient that lines 119 and 356 write;
  `wantedFrames32` is the float that the code stores.
* `int` fields hold values between `0` and `48000` in every state the program
  builds, so they are naturals; C integer division of naturals is `Nat` division.
* Calls into the emulation core and into SDL are recorded, in program order, in a
  list of `Call`s.  What SDL answers (queued audio size, texture lock result)
  is an input of the embedded function.
* The `while` loops of `emulatorLoop` are embedded with an explicit fuel: the
  fuel bounds the number of times the loop body may run and `none` means that the
  fuel was used up before the loop condition became false.
-/

namespace LakeSnes

/-! ## Data model -/

/-- The fields of the global `glb` (lines 16-43). -/
structure Glb where
  /-- True when `window != NULL`. -/
  window : Bool
  /-- True when `renderer != NULL`. -/
  renderer : Bool
  /-- True when `texture != NULL`. -/
  texture : Bool
  audioDevice : Nat
  audioFrequency : Nat
  /-- Either `none` for `NULL` or `some n` for a buffer of `n` bytes from `malloc(n)`. -/
  audioBuffer : Option Nat
  /-- True when `snes != NULL`. -/
  snes : Bool
  /-- The exact quotient written in lines 119 and 356; the code stores the float
  `wantedFrames32`. -/
  wantedFrames : ℚ
  wantedSamples : Nat
  loaded : Bool
  romName : Option String
  savePath : Option String
  statePath : Option String
  paused : Bool
  fastForward : Bool
  surfaceReady : Bool
  surfaceWidth : Int
  surfaceHeight : Int
  /-- True when `emulatorThread.joinable()`. -/
  emulatorThread : Bool
  running : Bool
  deriving DecidableEq

/-- The zero-initialised global, `glb = {}` (line 43). -/
def Glb.zero : Glb :=
  { window := false, renderer := false, texture := false, audioDevice := 0,
    audioFrequency := 0, audioBuffer := none, snes := false, wantedFrames := 0,
    wantedSamples := 0, loaded := false, romName := none, savePath := none,
    statePath := none, paused := false, fastForward := false, surfaceReady := false,
    surfaceWidth := 0, surfaceHeight := 0, emulatorThread := false, running := false }

/-- Calls made to the emulation core, to SDL, to the file system and to the log,
together with two markers for the entry into `playAudio` and `renderScreen`. -/
inductive Call where
  | snes_runFrame
  | playAudio
  | renderScreen
  | snes_setSamples (wantedSamples : Nat)
  | SDL_GetQueuedAudioSize
  | SDL_QueueAudio (len : Nat)
  | SDL_LockTexture
  | snes_setPixels
  | SDL_UnlockTexture
  | SDL_RenderClear
  | SDL_RenderCopy
  | SDL_RenderPresent
  | SDL_Delay (ms : Nat)
  | snes_saveBattery
  | writeFile (path : Option String)
  | snes_loadRom
  | startThread
  | LOGE (msg : String)
  deriving DecidableEq

/-! ## Audio hand-off (lines 251-258) -/

/-- The backpressure ceiling of `playAudio`: `glb.wantedSamples * 4 * 6`. -/
def audioCeiling (g : Glb) : Nat := g.wantedSamples * 4 * 6

/-- Embedding of `playAudio`.  `queued` is the value `SDL_GetQueuedAudioSize` returns. -/
def playAudio (g : Glb) (queued : Nat) : List Call :=
  if !g.snes || g.audioBuffer.isNone then [Call.playAudio]
  else
    [Call.playAudio, Call.snes_setSamples g.wantedSamples, Call.SDL_GetQueuedAudioSize] ++
      (if queued ≤ g.wantedSamples * 4 * 6 then [Call.SDL_QueueAudio (g.wantedSamples * 4)]
       else [])

/-- Bytes handed to the audio queue by a call trace: each `SDL_QueueAudio(dev, data, len)`
appends `len` bytes to the device queue. -/
def queuedBytes : List Call → Nat
  | [] => 0
  | Call.SDL_QueueAudio len :: cs => len + queuedBytes cs
  | _ :: cs => queuedBytes cs

/-- Size of the device queue after the calls of a trace, starting from `queued` bytes and
with nothing played in between. -/
def queueSizeAfter (queued : Nat) (cs : List Call) : Nat := queued + queuedBytes cs

/-! ## Video hand-off (lines 260-278) -/

/-- Embedding of `renderScreen`.  `lockResult` is what `SDL_LockTexture` returns
(`0` is success); `glb.surfaceReady` is read under `renderMutex`. -/
def renderScreen (g : Glb) (lockResult : Int) : List Call :=
  if !g.texture || !g.snes then [Call.renderScreen]
  else if lockResult ≠ 0 then
    [Call.renderScreen, Call.SDL_LockTexture, Call.LOGE "Failed to lock texture"]
  else
    [Call.renderScreen, Call.SDL_LockTexture, Call.snes_setPixels, Call.SDL_UnlockTexture] ++
      (if g.surfaceReady then
        [Call.SDL_RenderClear, Call.SDL_RenderCopy, Call.SDL_RenderPresent]
       else [])

/-! ## The emulator loop (lines 280-322) -/

/-- What SDL answers during one pacing step: the queued audio size seen by `playAudio`
and the result of `SDL_LockTexture` seen by `renderScreen`. -/
structure StepEnv where
  queued : Nat
  lockResult : Int

/-- Result of the inner `while(timeAdder >= glb.wantedFrames - 0.002)` loop. -/
structure Pacing where
  /-- Value of `timeAdder` when the loop is left. -/
  timeAdder : ℚ
  /-- Number of times the loop body ran. -/
  steps : Nat
  /-- Calls made, in order. -/
  calls : List Call

/-- The body of the inner loop after `timeAdder -= glb.wantedFrames` (lines 308-313). -/
def stepCalls (g : Glb) (e : StepEnv) : List Call :=
  (if g.fastForward then [Call.snes_runFrame] else []) ++
    [Call.snes_runFrame] ++ playAudio g e.queued ++ renderScreen g e.lockResult

/-- The inner loop (lines 305-314), read in exact arithmetic; `pacingLoop32` is the loop
in the binary32 arithmetic of the code.  `env i` holds SDL's answers during the `i`-th run
of the body, `i` is the index of the next run. -/
def pacingLoop (g : Glb) (env : Nat → StepEnv) : Nat → Nat → ℚ → Option Pacing
  | fuel, i, timeAdder =>
    if timeAdder ≥ g.wantedFrames - 1 / 500 then
      match fuel with
      | 0 => none
      | fuel + 1 =>
        match pacingLoop g env fuel (i + 1) (timeAdder - g.wantedFrames) with
        | none => none
        | some r =>
          some { timeAdder := r.timeAdder, steps := r.steps + 1,
                 calls := stepCalls g (env i) ++ r.calls }
    else some { timeAdder := timeAdder, steps := 0, calls := [] }

/-- The event loop `while(SDL_PollEvent(&event))` (lines 296-301).  `events` are the types
of the pending events; `SDL_QUIT` is `256`. -/
def pollEvents (running : Bool) : List Nat → Bool
  | [] => running
  | ty :: evs => pollEvents (if ty = 256 then false else running) evs

/-- State after one run of the body of `while(glb.running)`. -/
structure Iteration where
  timeAdder : ℚ
  running : Bool
  /-- Number of runs of the inner loop body. -/
  steps : Nat
  calls : List Call

/-- One run of the body of `while(glb.running)` (lines 288-318), read in exact arithmetic;
`loopIteration32` is the same in the binary32 arithmetic of the code.  `seconds` is the
elapsed-time sample `delta / (float) countFreq`. -/
def loopIteration (g : Glb) (env : Nat → StepEnv) (events : List Nat) (fuel : Nat)
    (timeAdder seconds : ℚ) : Option Iteration :=
  let timeAdder := timeAdder + seconds
  let running := pollEvents g.running events
  if g.loaded && !g.paused then
    match pacingLoop g env fuel 0 timeAdder with
    | none => none
    | some r =>
      some { timeAdder := r.timeAdder, running := running, steps := r.steps,
             calls := r.calls ++ [Call.SDL_Delay 1] }
  else
    some { timeAdder := timeAdder, running := running, steps := 0,
           calls := [Call.SDL_Delay 1] }

/-- The elapsed-time sample of lines 288-291 in exact arithmetic: the 64-bit difference of
two counter readings divided by the counter frequency (`elapsedSeconds32` is the float that
the code computes). -/
def elapsedSeconds (countFreq lastCount curCount : Nat) : ℚ :=
  (((curCount + 2 ^ 64 - lastCount % 2 ^ 64) % 2 ^ 64 : Nat) : ℚ) / (countFreq : ℚ)

/-- Number of occurrences of a call in a trace. -/
def countCall (c : Call) (cs : List Call) : Nat := cs.count c

/-- Inputs of one run of the body of `while(glb.running)`: the elapsed-time sample, the
pending SDL events and SDL's answers during the pacing steps. -/
structure Tick where
  seconds : ℚ
  events : List Nat
  env : Nat → StepEnv

/-- State after a number of runs of the body of `while(glb.running)`. -/
structure Run where
  timeAdder : ℚ
  running : Bool
  /-- Pacing step count of every iteration, in order. -/
  stepCounts : List Nat
  calls : List Call

/-- The loop `while(glb.running)` of `emulatorLoop` (lines 287-319), run on the clock
samples of `ticks`, from the accumulator value `timeAdder`.  The loop is left as soon as
`glb.running` is false; it is observed until `ticks` is used up. -/
def emulatorLoopFrom (fuel : Nat) : Glb → ℚ → List Tick → Option Run
  | g, timeAdder, [] =>
    some { timeAdder := timeAdder, running := g.running, stepCounts := [], calls := [] }
  | g, timeAdder, tick :: rest =>
    if g.running then
      match loopIteration g tick.env tick.events fuel timeAdder tick.seconds with
      | none => none
      | some r =>
        match emulatorLoopFrom fuel { g with running := r.running } r.timeAdder rest with
        | none => none
        | some rr =>
          some { timeAdder := rr.timeAdder, running := rr.running,
                 stepCounts := r.steps :: rr.stepCounts, calls := r.calls ++ rr.calls }
    else some { timeAdder := timeAdder, running := false, stepCounts := [], calls := [] }

/-- Embedding of `emulatorLoop`: `float timeAdder = 0.0` (line 285), then the loop. -/
def emulatorLoop (fuel : Nat) (g : Glb) (ticks : List Tick) : Option Run :=
  emulatorLoopFrom fuel g 0 ticks

/-- The number of pacing steps of one iteration in closed form: the integer part of
`(timeAdder + 0.002) / wantedFrames`, where `timeAdder` already holds the new sample. -/
def stepBound (wantedFrames timeAdder : ℚ) : Nat :=
  Int.toNat ⌊(timeAdder + 1 / 500) / wantedFrames⌋

/-! ## ROM loading (lines 325-402) -/

/-- What the file system and the emulation core answer during a ROM load. -/
structure RomEnv where
  /-- Content of a file, `none` when `fopen` fails. -/
  fs : String → Option (List Nat)
  /-- Result of `snes_loadRom` on the file content: `none` is `false`, `some pal` is `true`
  with `glb.snes->palTiming = pal` afterwards. -/
  snes_loadRom : List Nat → Option Bool
  /-- Size reported by `snes_saveBattery(glb.snes, NULL)`. -/
  batterySize : Int
  /-- True when `fopen(glb.savePath, "wb") != NULL`. -/
  saveWritable : Bool

/-- Embedding of `readFile` (lines 325-339).  `fread(buffer, size, 1, f)` returns `1` only
when it reads one item of `size > 0` bytes, so an empty file gives `NULL`. -/
def readFile (fs : String → Option (List Nat)) (name : String) : Option (List Nat) :=
  match fs name with
  | none => none
  | some bytes => if bytes.length = 0 then none else some bytes

/-- Embedding of `closeRom` (lines 374-391): it assigns no field of `glb`, so only its calls
are kept. -/
def closeRom (g : Glb) (batterySize : Int) (saveWritable : Bool) : List Call :=
  if !g.loaded then []
  else if batterySize > 0 then
    [Call.snes_saveBattery, Call.snes_saveBattery] ++
      (if saveWritable then [Call.writeFile g.savePath]
       else [Call.LOGE "Failed to save battery data"])
  else [Call.snes_saveBattery]

/-- Embedding of `setPaths` (lines 393-402). -/
def setPaths (g : Glb) (path : String) : Glb :=
  { g with romName := some path,
           savePath := some "/data/data/com.lakesnes.emulator/saves.srm",
           statePath := some "/data/data/com.lakesnes.emulator/state.lss" }

/-- Embedding of `loadRomFromPath` (lines 341-372). -/
def loadRomFromPath (env : RomEnv) (g : Glb) (path : String) : Glb × List Call :=
  match readFile env.fs path with
  | none => (g, [Call.LOGE "Failed to read file"])
  | some file =>
    let cs := closeRom g env.batterySize env.saveWritable
    match env.snes_loadRom file with
    | some palTiming =>
      let g := setPaths g path
      let g := { g with wantedFrames := 1 / (if palTiming then 50 else 60),
                        wantedSamples := g.audioFrequency / (if palTiming then 50 else 60),
                        loaded := true, paused := false }
      if !g.emulatorThread then
        ({ g with emulatorThread := true }, cs ++ [Call.snes_loadRom, Call.startThread])
      else (g, cs ++ [Call.snes_loadRom])
    | none => (g, cs ++ [Call.snes_loadRom, Call.LOGE "Failed to load ROM"])

/-- A ROM load fails when the file cannot be read or `snes_loadRom` returns `false`. -/
def loadFails (env : RomEnv) (path : String) : Bool :=
  match readFile env.fs path with
  | none => true
  | some file => (env.snes_loadRom file).isNone

/-! ## Command channel (lines 60-220) -/

/-- What SDL and the core answer during the initialisation in `nativeSurfaceChanged`. -/
structure InitEnv where
  /-- Return value of `SDL_Init`. -/
  initResult : Int
  /-- True when `SDL_CreateWindow(...) != NULL`. -/
  windowOk : Bool
  /-- True when `SDL_CreateRenderer(...) != NULL`. -/
  rendererOk : Bool
  /-- True when `SDL_CreateTexture(...) != NULL`. -/
  textureOk : Bool
  /-- Return value of `SDL_OpenAudioDevice`. -/
  audioDevice : Nat
  /-- True when the `malloc` of the audio buffer returns a non-null pointer. -/
  bufferOk : Bool
  /-- True when `snes_init() != NULL`. -/
  snesOk : Bool

/-- Embedding of `nativeSurfaceChanged` (lines 60-128). -/
def nativeSurfaceChanged (env : InitEnv) (g : Glb) (width height : Int) : Glb :=
  let g := { g with surfaceWidth := width, surfaceHeight := height, surfaceReady := true }
  if !g.window then
    if env.initResult ≠ 0 then g
    else
      let g := { g with window := env.windowOk }
      if !g.window then g
      else
        let g := { g with renderer := env.rendererOk }
        if !g.renderer then g
        else
          let g := { g with texture := env.textureOk }
          if !g.texture then g
          else
            let g := { g with audioFrequency := 48000 }
            let g := { g with audioDevice := env.audioDevice }
            let g := if g.audioDevice = 0 then g
                     else { g with audioBuffer :=
                              if env.bufferOk then some (g.audioFrequency / 50 * 4) else none }
            { g with snes := env.snesOk, wantedFrames := 1 / 60,
                     wantedSamples := g.audioFrequency / 60, loaded := false,
                     paused := true, fastForward := false, running := true }
  else g

/-- Embedding of `nativeSurfaceDestroyed` (lines 130-136). -/
def nativeSurfaceDestroyed (g : Glb) : Glb := { g with surfaceReady := false }

/-- Embedding of `nativeLoadRom` (lines 149-156); `path` is `none` when
`GetStringUTFChars` returns `NULL`. -/
def nativeLoadRom (env : RomEnv) (g : Glb) (path : Option String) : Glb :=
  match path with
  | some pathStr => (loadRomFromPath env g pathStr).1
  | none => g

/-- Embedding of `nativePause` (lines 158-162). -/
def nativePause (g : Glb) : Glb := { g with paused := !g.paused }

/-- Embedding of `nativeResume` (lines 164-170). -/
def nativeResume (g : Glb) : Glb := if g.paused then { g with paused := false } else g

/-- Embedding of `nativeSetFastForward` (lines 180-184). -/
def nativeSetFastForward (g : Glb) (fastForward : Bool) : Glb :=
  { g with fastForward := fastForward }

/-- The entry points of the command channel, with what the environment answers. -/
inductive Command where
  | surfaceChanged (env : InitEnv) (width height : Int)
  | surfaceDestroyed
  | touchEvent
  | buttonPressed (button : Int) (pressed : Bool)
  | loadRom (env : RomEnv) (path : Option String)
  | pause
  | resume
  | reset
  | setFastForward (fastForward : Bool)
  | saveState
  | loadState

/-- Effect of one command on `glb`.  `nativeTouchEvent`, `nativeButtonPressed`,
`nativeReset`, `nativeSaveState` and `nativeLoadState` assign no field of `glb`. -/
def Command.apply (g : Glb) : Command → Glb
  | .surfaceChanged env width height => nativeSurfaceChanged env g width height
  | .surfaceDestroyed => nativeSurfaceDestroyed g
  | .touchEvent => g
  | .buttonPressed _ _ => g
  | .loadRom env path => nativeLoadRom env g path
  | .pause => nativePause g
  | .resume => nativeResume g
  | .reset => g
  | .setFastForward fastForward => nativeSetFastForward g fastForward
  | .saveState => g
  | .loadState => g

/-- State after a sequence of commands. -/
def runCommands (g : Glb) (cmds : List Command) : Glb := cmds.foldl Command.apply g

/-- The initialisation in `nativeSurfaceChanged` succeeds: SDL starts, window, renderer and
texture are created, the audio device is opened, the audio buffer is allocated and the core
is created. -/
def InitEnv.succeeds (env : InitEnv) : Bool :=
  env.initResult == 0 && env.windowOk && env.rendererOk && env.textureOk &&
    env.audioDevice != 0 && env.bufferOk && env.snesOk

/-- Size in bytes of the buffer behind `glb.audioBuffer` (`0` for `NULL`). -/
def audioBufferSize (g : Glb) : Nat := g.audioBuffer.getD 0

/-- The facts about `glb` that every command keeps once initialisation has succeeded. -/
def AudioReady (g : Glb) : Prop :=
  g.window = true ∧ g.audioFrequency = 48000 ∧ g.audioBuffer = some 3840 ∧
    (g.wantedSamples = 800 ∨ g.wantedSamples = 960)

/-- The state reached from `g` by a `nativeSurfaceChanged` call followed by a sequence of
commands. -/
def afterInit (env : InitEnv) (g : Glb) (width height : Int) (cmds : List Command) : Glb :=
  runCommands (nativeSurfaceChanged env g width height) cmds

/-! ## Binary32 and binary64 arithmetic

`timeAdder`, `seconds` and `glb.wantedFrames` are C `float`s and the loop test is made in
`double` (lines 27, 285, 291-292, 305-306).  A binary32 number is kept as the integer number
of units of `2^-149` it is made of, a binary64 number as its number of units of `2^-1074`;
every operation rounds to nearest, ties to even.  Overflow to infinity is not modelled: the
numbers of this development stay far below `2^128`. -/

/-- The integer nearest to `A / C`, the even one of the two at a tie. -/
def divNearestEven (A C : ℕ) : ℕ :=
  let q := A / C
  let r := A % C
  if 2 * r < C then q else if C < 2 * r then q + 1 else if q % 2 = 0 then q else q + 1

/-- Binary search for the position of the leading binary digit of `n`, between `lo` and
`lo + 2 ^ fuel`. -/
def log2Search : ℕ → ℕ → ℕ → ℕ
  | 0, lo, _ => lo
  | fuel + 1, lo, n =>
    if 2 ^ (lo + 2 ^ fuel) ≤ n then log2Search fuel (lo + 2 ^ fuel) n
    else log2Search fuel lo n

/-- Number of binary digits of `n` (for `n < 2 ^ 4096`, which covers binary32 and binary64 in
their units). -/
def bitLength (n : ℕ) : ℕ := if n = 0 then 0 else log2Search 12 0 n + 1

/-- The quotient `A / B` rounded to an integer of at most `prec` significant binary digits. -/
def roundRatio (prec A B : ℕ) : ℕ :=
  let e := bitLength (A / B) - prec
  divNearestEven A (B * 2 ^ e) * 2 ^ e

/-- The quotient `n / d` rounded to an integer of at most `prec` significant binary digits. -/
def roundSigned (prec : ℕ) (n : ℤ) (d : ℕ) : ℤ :=
  if 0 ≤ n then (roundRatio prec n.toNat d : ℤ) else -(roundRatio prec (-n).toNat d : ℤ)

/-- The binary32 number nearest to `m` units of `2^-149`. -/
def f32Round (m : ℤ) : ℤ := roundSigned 24 m 1

/-- Float addition `a + b`. -/
def f32Add (a b : ℤ) : ℤ := f32Round (a + b)

/-- Float subtraction `a - b`. -/
def f32Sub (a b : ℤ) : ℤ := f32Round (a - b)

/-- The binary32 number nearest to the real `x`. -/
def f32OfRat (x : ℚ) : ℤ := roundSigned 24 (x.num * 2 ^ 149) x.den

/-- The binary64 number nearest to the real `x`. -/
def f64OfRat (x : ℚ) : ℤ := roundSigned 53 (x.num * 2 ^ 1074) x.den

/-- The binary64 number nearest to `m` units of `2^-1074`. -/
def f64Round (m : ℤ) : ℤ := roundSigned 53 m 1

/-- Conversion of a `double` to `float`, as in the store into `glb.wantedFrames`. -/
def f32OfF64 (d : ℤ) : ℤ := roundSigned 24 d (2 ^ 925)

/-- The real value of a binary32 number. -/
def f32ToRat (a : ℤ) : ℚ := (a : ℚ) / 2 ^ 149

/-- The float held by `glb.wantedFrames`.  The field of `Glb` keeps the exact quotient
`1 / 60` or `1 / 50` written in lines 119 and 356; the code computes the quotient in
`double` and stores it into a `float`. -/
def wantedFrames32 (g : Glb) : ℤ := f32OfF64 (f64OfRat g.wantedFrames)

/-- The `double` value of `glb.wantedFrames - 0.002` in line 305, for the float `w`. -/
def threshold64 (w : ℤ) : ℤ := f64Round (w * 2 ^ 925 - f64OfRat (1 / 500))

/-- The elapsed-time sample of lines 288-291 as the code computes it: the counter difference
and the frequency are converted to `float` and divided as `float`s. -/
def elapsedSeconds32 (countFreq lastCount curCount : ℕ) : ℤ :=
  f32OfRat
    (f32ToRat (f32OfRat (((curCount + 2 ^ 64 - lastCount % 2 ^ 64) % 2 ^ 64 : ℕ) : ℚ)) /
      f32ToRat (f32OfRat (countFreq : ℚ)))

/-! ## The emulator loop in binary32 -/

/-- Result of the inner loop, with `timeAdder` as a binary32 number. -/
structure Pacing32 where
  /-- Value of `timeAdder` when the loop is left. -/
  timeAdder : ℤ
  /-- Number of times the loop body ran. -/
  steps : ℕ
  /-- Calls made, in order. -/
  calls : List Call
  deriving DecidableEq

/-- The inner loop (lines 305-314) in the arithmetic of the code: the test compares
`timeAdder` with `glb.wantedFrames - 0.002` as `double`s and
`timeAdder -= glb.wantedFrames` is a float subtraction. -/
def pacingLoop32 (g : Glb) (env : Nat → StepEnv) : Nat → Nat → ℤ → Option Pacing32
  | fuel, i, timeAdder =>
    if threshold64 (wantedFrames32 g) ≤ timeAdder * 2 ^ 925 then
      match fuel with
      | 0 => none
      | fuel + 1 =>
        match pacingLoop32 g env fuel (i + 1) (f32Sub timeAdder (wantedFrames32 g)) with
        | none => none
        | some r =>
          some { timeAdder := r.timeAdder, steps := r.steps + 1,
                 calls := stepCalls g (env i) ++ r.calls }
    else some { timeAdder := timeAdder, steps := 0, calls := [] }

/-- State after one run of the body of `while(glb.running)`, in binary32. -/
structure Iteration32 where
  timeAdder : ℤ
  running : Bool
  /-- Number of runs of the inner loop body. -/
  steps : ℕ
  calls : List Call
  deriving DecidableEq

/-- One run of the body of `while(glb.running)` (lines 288-318) in the arithmetic of the
code; `seconds` is the float of line 291 and `timeAdder += seconds` a float addition. -/
def loopIteration32 (g : Glb) (env : Nat → StepEnv) (events : List Nat) (fuel : Nat)
    (timeAdder seconds : ℤ) : Option Iteration32 :=
  let timeAdder := f32Add timeAdder seconds
  let running := pollEvents g.running events
  if g.loaded && !g.paused then
    match pacingLoop32 g env fuel 0 timeAdder with
    | none => none
    | some r =>
      some { timeAdder := r.timeAdder, running := running, steps := r.steps,
             calls := r.calls ++ [Call.SDL_Delay 1] }
  else
    some { timeAdder := timeAdder, running := running, steps := 0,
           calls := [Call.SDL_Delay 1] }

/-- Inputs of one run of the body of `while(glb.running)`, the sample being a float. -/
structure Tick32 where
  seconds : ℤ
  events : List Nat
  env : Nat → StepEnv

/-- State after a number of runs of the body of `while(glb.running)`, in binary32. -/
structure Run32 where
  timeAdder : ℤ
  running : Bool
  /-- Pacing step count of every iteration, in order. -/
  stepCounts : List Nat
  calls : List Call
  deriving DecidableEq

/-- The loop `while(glb.running)` (lines 287-319) in the arithmetic of the code, run on the
clock samples of `ticks` from the accumulator value `timeAdder`. -/
def emulatorLoopFrom32 (fuel : Nat) : Glb → ℤ → List Tick32 → Option Run32
  | g, timeAdder, [] =>
    some { timeAdder := timeAdder, running := g.running, stepCounts := [], calls := [] }
  | g, timeAdder, tick :: rest =>
    if g.running then
      match loopIteration32 g tick.env tick.events fuel timeAdder tick.seconds with
      | none => none
      | some r =>
        match emulatorLoopFrom32 fuel { g with running := r.running } r.timeAdder rest with
        | none => none
        | some rr =>
          some { timeAdder := rr.timeAdder, running := rr.running,
                 stepCounts := r.steps :: rr.stepCounts, calls := r.calls ++ rr.calls }
    else some { timeAdder := timeAdder, running := false, stepCounts := [], calls := [] }

/-- Embedding of `emulatorLoop` in the arithmetic of the code: `float timeAdder = 0.0`
(line 285), then the loop. -/
def emulatorLoop32 (fuel : Nat) (g : Glb) (ticks : List Tick32) : Option Run32 :=
  emulatorLoopFrom32 fuel g 0 ticks

/-- The answers of the bundled SDL (`SDL2_stub.c`) during initialisation: every call
succeeds and the audio device id is `1`. -/
def stubInit : InitEnv :=
  { initResult := 0, windowOk := true, rendererOk := true, textureOk := true,
    audioDevice := 1, bufferOk := true, snesOk := true }

/-- The answers of the bundled SDL during a pacing step: `SDL_GetQueuedAudioSize` returns
`0` and `SDL_LockTexture` returns `0`. -/
def stubStep : Nat → StepEnv := fun _ => { queued := 0, lockResult := 0 }

/-- A file system holding one non-empty ROM file, and a core that accepts it as an NTSC
cartridge without battery. -/
def ntscRom : RomEnv :=
  { fs := fun name => if name = "game.sfc" then some [1, 2, 3] else none,
    snes_loadRom := fun _ => some false, batterySize := 0, saveWritable := true }

/-- A core that accepts every file as a PAL cartridge. -/
def palRom : RomEnv :=
  { fs := fun name => if name = "game.sfc" then some [1, 2, 3] else none,
    snes_loadRom := fun _ => some true, batterySize := 0, saveWritable := true }

/-- A core that rejects every file. -/
def badRom : RomEnv :=
  { fs := fun name => if name = "game.sfc" then some [1, 2, 3] else none,
    snes_loadRom := fun _ => none, batterySize := 0, saveWritable := true }

/-- The state after the first `nativeSurfaceChanged(512, 480)` on the bundled SDL. -/
def initialised : Glb :=
  { Glb.zero with
    window := true, renderer := true, texture := true, audioDevice := 1,
    audioFrequency := 48000, audioBuffer := some 3840, snes := true,
    wantedFrames := 1 / 60, wantedSamples := 800, loaded := false, paused := true,
    fastForward := false, surfaceReady := true, surfaceWidth := 512, surfaceHeight := 480,
    running := true }

/-- A clock sample of `seconds` seconds with no pending event, on the bundled SDL. -/
def sampleTick (seconds : ℚ) : Tick := { seconds := seconds, events := [], env := stubStep }

/-- A clock sample of the float nearest to `seconds` seconds with no pending event, on the
bundled SDL. -/
def sampleTick32 (seconds : ℚ) : Tick32 :=
  { seconds := f32OfRat seconds, events := [], env := stubStep }

/-- The state after initialisation and the load of an NTSC ROM: a running session. -/
def ntscRunning : Glb :=
  { initialised with
    wantedFrames := 1 / 60, wantedSamples := 800, loaded := true, paused := false,
    romName := some "game.sfc",
    savePath := some "/data/data/com.lakesnes.emulator/saves.srm",
    statePath := some "/data/data/com.lakesnes.emulator/state.lss",
    emulatorThread := true }

/-- The iteration of the running NTSC session that consumes one frame time: one pacing
step, an empty accumulator afterwards. -/
def oneFrameIteration : Iteration32 :=
  { timeAdder := 0, running := true, steps := 1,
    calls :=
      [Call.snes_runFrame, Call.playAudio, Call.snes_setSamples 800,
        Call.SDL_GetQueuedAudioSize, Call.SDL_QueueAudio 3200, Call.renderScreen,
        Call.SDL_LockTexture, Call.snes_setPixels, Call.SDL_UnlockTexture,
        Call.SDL_RenderClear, Call.SDL_RenderCopy, Call.SDL_RenderPresent,
        Call.SDL_Delay 1] }

/-! ## The inner loop -/

theorem pacingLoop_exit (g : Glb) (env : Nat → StepEnv) (fuel i : Nat) (t : ℚ)
    (h : ¬ t ≥ g.wantedFrames - 1 / 500) :
    pacingLoop g env fuel i t = some { timeAdder := t, steps := 0, calls := [] } := by
  unfold pacingLoop
  rw [if_neg h]

theorem pacingLoop_step (g : Glb) (env : Nat → StepEnv) (fuel i : Nat) (t : ℚ)
    (h : t ≥ g.wantedFrames - 1 / 500) :
    pacingLoop g env (fuel + 1) i t =
      (pacingLoop g env fuel (i + 1) (t - g.wantedFrames)).map fun r =>
        { timeAdder := r.timeAdder, steps := r.steps + 1,
          calls := stepCalls g (env i) ++ r.calls } := by
  rw [pacingLoop]
  rw [if_pos h]
  cases pacingLoop g env fuel (i + 1) (t - g.wantedFrames) <;> rfl

theorem pacingLoop_zero (g : Glb) (env : Nat → StepEnv) (i : Nat) (t : ℚ)
    (h : t ≥ g.wantedFrames - 1 / 500) : pacingLoop g env 0 i t = none := by
  rw [pacingLoop, if_pos h]

/-- What a finished inner loop leaves behind. -/
theorem pacingLoop_sound (g : Glb) (env : Nat → StepEnv) :
    ∀ (fuel i : Nat) (t : ℚ) (r : Pacing), pacingLoop g env fuel i t = some r →
      r.timeAdder = t - r.steps * g.wantedFrames ∧
      r.timeAdder < g.wantedFrames - 1 / 500 ∧
      (0 < r.steps → -(1 / 500) ≤ r.timeAdder) ∧
      r.steps ≤ fuel ∧
      r.calls = (List.range r.steps).flatMap (fun k => stepCalls g (env (i + k))) := by
  intro fuel
  induction fuel with
  | zero =>
    intro i t r h
    by_cases hc : t ≥ g.wantedFrames - 1 / 500
    · rw [pacingLoop_zero g env i t hc] at h; cases h
    · rw [pacingLoop_exit g env 0 i t hc] at h
      cases h
      refine ⟨by simp, lt_of_not_ge hc, by simp, by simp, by simp⟩
  | succ fuel ih =>
    intro i t r h
    by_cases hc : t ≥ g.wantedFrames - 1 / 500
    · rw [pacingLoop_step g env fuel i t hc] at h
      cases hr : pacingLoop g env fuel (i + 1) (t - g.wantedFrames) with
      | none => rw [hr] at h; cases h
      | some r1 =>
        rw [hr] at h
        simp only [Option.map_some'] at h
        cases h
        obtain ⟨h1, h2, h3, h4, h5⟩ := ih (i + 1) _ r1 hr
        refine ⟨?_, h2, ?_, by simpa using h4, ?_⟩
        · simp only [h1]; push_cast; ring
        · intro _
          rcases Nat.eq_zero_or_pos r1.steps with h0 | h0
          · rw [h0] at h1; simp only [Nat.cast_zero, zero_mul, sub_zero] at h1; rw [h1]; linarith
          · exact h3 h0
        · simp only [h5, List.range_succ_eq_map, List.flatMap_cons, List.flatMap_map]
          simp [Function.comp_def, Nat.add_assoc, Nat.add_comm 1]
    · rw [pacingLoop_exit g env _ i t hc] at h
      cases h
      refine ⟨by simp, lt_of_not_ge hc, by simp, by simp, by simp⟩

/-- The inner loop ends as soon as the fuel covers the accumulated time. -/
theorem pacingLoop_total (g : Glb) (env : Nat → StepEnv) :
    ∀ (fuel i : Nat) (t : ℚ), t - fuel * g.wantedFrames < g.wantedFrames - 1 / 500 →
      ∃ r, pacingLoop g env fuel i t = some r := by
  intro fuel
  induction fuel with
  | zero =>
    intro i t h
    simp only [Nat.cast_zero, zero_mul, sub_zero] at h
    exact ⟨_, pacingLoop_exit g env 0 i t (not_le_of_lt h)⟩
  | succ fuel ih =>
    intro i t h
    by_cases hc : t ≥ g.wantedFrames - 1 / 500
    · rw [pacingLoop_step g env fuel i t hc]
      obtain ⟨r1, hr1⟩ := ih (i + 1) (t - g.wantedFrames) (by push_cast at h; linarith)
      exact ⟨_, by rw [hr1]; rfl⟩
    · exact ⟨_, pacingLoop_exit g env _ i t hc⟩

theorem stepBound_fuel (w t : ℚ) (hw : 0 < w) (fuel : Nat) (h : stepBound w t ≤ fuel) :
    t - fuel * w < w - 1 / 500 := by
  have h1 : (t + 1 / 500) / w < ⌊(t + 1 / 500) / w⌋ + 1 := Int.lt_floor_add_one _
  have h2 : (⌊(t + 1 / 500) / w⌋ : ℚ) ≤ ((stepBound w t : ℕ) : ℚ) := by
    have : ⌊(t + 1 / 500) / w⌋ ≤ ((stepBound w t : ℕ) : ℤ) := Int.self_le_toNat _
    exact_mod_cast this
  have h3 : ((stepBound w t : ℕ) : ℚ) ≤ (fuel : ℚ) := by exact_mod_cast h
  have h4 : (t + 1 / 500) / w < fuel + 1 := by linarith
  rw [div_lt_iff₀ hw] at h4
  linarith

theorem stepBound_eq (w t : ℚ) (hw : 0 < w) (k : Nat)
    (h1 : t - k * w < w - 1 / 500) (h2 : 0 < k → -(1 / 500) ≤ t - k * w) :
    k = stepBound w t := by
  unfold stepBound
  have hlt : (t + 1 / 500) / w < k + 1 := by
    rw [div_lt_iff₀ hw]; linarith
  rcases Nat.eq_zero_or_pos k with h0 | h0
  · subst h0
    have : ⌊(t + 1 / 500) / w⌋ < 1 := by
      rw [Int.floor_lt]; simpa using hlt
    have h3 : ⌊(t + 1 / 500) / w⌋ ≤ 0 := by omega
    rw [Int.toNat_eq_zero.mpr h3]
  · have hle : (k : ℚ) ≤ (t + 1 / 500) / w := by
      rw [le_div_iff₀ hw]; have := h2 h0; linarith
    have : ⌊(t + 1 / 500) / w⌋ = (k : ℤ) := by
      rw [Int.floor_eq_iff]
      exact ⟨by exact_mod_cast hle, by exact_mod_cast hlt⟩
    rw [this]; simp

/-! ## Counting calls -/

theorem countCall_append (c : Call) (xs ys : List Call) :
    countCall c (xs ++ ys) = countCall c xs + countCall c ys := by
  simp [countCall]

theorem countCall_playAudio_self (g : Glb) (queued : Nat) :
    countCall Call.playAudio (playAudio g queued) = 1 := by
  unfold playAudio countCall
  split <;> [skip; split] <;> simp

theorem countCall_renderScreen_self (g : Glb) (lockResult : Int) :
    countCall Call.renderScreen (renderScreen g lockResult) = 1 := by
  unfold renderScreen countCall
  split <;> [skip; (split <;> [skip; split])] <;> simp

theorem countCall_playAudio_other (g : Glb) (queued : Nat) (c : Call)
    (hc : c = Call.snes_runFrame ∨ c = Call.renderScreen) :
    countCall c (playAudio g queued) = 0 := by
  unfold playAudio countCall
  rcases hc with rfl | rfl <;> (split <;> [skip; split]) <;> simp

theorem countCall_renderScreen_other (g : Glb) (lockResult : Int) (c : Call)
    (hc : c = Call.snes_runFrame ∨ c = Call.playAudio) :
    countCall c (renderScreen g lockResult) = 0 := by
  unfold renderScreen countCall
  rcases hc with rfl | rfl <;> (split <;> [skip; (split <;> [skip; split])]) <;> simp

theorem countCall_stepCalls_runFrame (g : Glb) (e : StepEnv) :
    countCall Call.snes_runFrame (stepCalls g e) = if g.fastForward then 2 else 1 := by
  unfold stepCalls
  rw [countCall_append, countCall_append, countCall_append,
    countCall_playAudio_other g _ _ (Or.inl rfl),
    countCall_renderScreen_other g _ _ (Or.inl rfl)]
  cases g.fastForward <;> simp [countCall]

theorem countCall_stepCalls_playAudio (g : Glb) (e : StepEnv) :
    countCall Call.playAudio (stepCalls g e) = 1 := by
  unfold stepCalls
  rw [countCall_append, countCall_append, countCall_append,
    countCall_playAudio_self, countCall_renderScreen_other g _ _ (Or.inr rfl)]
  cases g.fastForward <;> simp [countCall]

theorem countCall_stepCalls_renderScreen (g : Glb) (e : StepEnv) :
    countCall Call.renderScreen (stepCalls g e) = 1 := by
  unfold stepCalls
  rw [countCall_append, countCall_append, countCall_append,
    countCall_renderScreen_self, countCall_playAudio_other g _ _ (Or.inr rfl)]
  cases g.fastForward <;> simp [countCall]

theorem countCall_flatMap_range (c : Call) (f : Nat → List Call) (m : Nat)
    (hf : ∀ k, countCall c (f k) = m) (n : Nat) :
    countCall c ((List.range n).flatMap f) = n * m := by
  induction n with
  | zero => simp [countCall]
  | succ n ih =>
    rw [List.range_succ, List.flatMap_append, countCall_append, ih]
    simp [hf, Nat.succ_mul]

theorem initialised_reachable :
    nativeSurfaceChanged stubInit Glb.zero 512 480 = initialised := by
  simp [nativeSurfaceChanged, stubInit, Glb.zero, initialised]

theorem ntscRunning_reachable :
    runCommands Glb.zero
      [Command.surfaceChanged stubInit 512 480, Command.loadRom ntscRom (some "game.sfc")] =
      ntscRunning := by
  simp only [runCommands, List.foldl, Command.apply, initialised_reachable]
  simp [nativeLoadRom, loadRomFromPath, readFile, ntscRom, closeRom, setPaths, initialised,
    ntscRunning, Glb.zero]

/-! ## One iteration of the loop -/

/-- One iteration in the running state: it ends once the fuel reaches the closed-form step
count, and this is what it leaves behind. -/
theorem loopIteration_running (g : Glb) (env : Nat → StepEnv) (events : List Nat)
    (t s : ℚ) (hl : g.loaded = true) (hp : g.paused = false) (hw : 0 < g.wantedFrames)
    (fuel : Nat) (hf : stepBound g.wantedFrames (t + s) ≤ fuel) :
    ∃ r, loopIteration g env events fuel t s = some r ∧
      r.steps = stepBound g.wantedFrames (t + s) ∧
      r.timeAdder = t + s - r.steps * g.wantedFrames ∧
      r.timeAdder < g.wantedFrames - 1 / 500 ∧
      (0 < r.steps → -(1 / 500) ≤ r.timeAdder) ∧
      r.running = pollEvents g.running events ∧
      r.calls = (List.range r.steps).flatMap (fun k => stepCalls g (env k)) ++
        [Call.SDL_Delay 1] := by
  obtain ⟨p, hp1⟩ := pacingLoop_total g env fuel 0 (t + s)
    (stepBound_fuel g.wantedFrames (t + s) hw fuel hf)
  obtain ⟨h1, h2, h3, _, h5⟩ := pacingLoop_sound g env fuel 0 (t + s) p hp1
  refine ⟨{ timeAdder := p.timeAdder, running := pollEvents g.running events,
            steps := p.steps, calls := p.calls ++ [Call.SDL_Delay 1] }, ?_, ?_, h1, h2, h3,
          rfl, ?_⟩
  · simp [loopIteration, hl, hp, hp1]
  · exact stepBound_eq g.wantedFrames (t + s) hw p.steps (h1 ▸ h2) (fun h => h1 ▸ h3 h)
  · simp [h5]

/-- One iteration while paused or without a ROM: no fuel is needed. -/
theorem loopIteration_idle (g : Glb) (env : Nat → StepEnv) (events : List Nat)
    (t s : ℚ) (h : g.paused = true ∨ g.loaded = false) (fuel : Nat) :
    loopIteration g env events fuel t s =
      some { timeAdder := t + s, running := pollEvents g.running events, steps := 0,
             calls := [Call.SDL_Delay 1] } := by
  rcases h with h | h <;> simp [loopIteration, h]

theorem stepBound_ntsc (n : Nat) : stepBound (1 / 60) (0 + (n : ℚ) / 60) = n := by
  unfold stepBound
  have : ⌊(0 + (n : ℚ) / 60 + 1 / 500) / (1 / 60)⌋ = (n : ℤ) := by
    rw [Int.floor_eq_iff]
    constructor
    · push_cast; linarith
    · push_cast; linarith
  rw [this]; simp

/-- The whole loop never steps the core while no ROM is loaded. -/
theorem emulatorLoopFrom_unloaded (fuel : Nat) :
    ∀ (ticks : List Tick) (g : Glb) (t : ℚ), g.loaded = false →
      ∃ run, emulatorLoopFrom fuel g t ticks = some run ∧
        countCall Call.snes_runFrame run.calls = 0 := by
  intro ticks
  induction ticks with
  | nil => intro g t _; exact ⟨_, rfl, by simp [countCall]⟩
  | cons tick rest ih =>
    intro g t hl
    cases hr : g.running with
    | false =>
      exact ⟨{ timeAdder := t, running := false, stepCounts := [], calls := [] },
        by simp [emulatorLoopFrom, hr], by simp [countCall]⟩
    | true =>
      obtain ⟨run, h1, h2⟩ := ih { g with running := pollEvents g.running tick.events }
        (t + tick.seconds) hl
      refine ⟨{ timeAdder := run.timeAdder, running := run.running,
                stepCounts := 0 :: run.stepCounts,
                calls := [Call.SDL_Delay 1] ++ run.calls }, ?_, ?_⟩
      · rw [emulatorLoopFrom]
        simp only [hr, if_true]
        rw [loopIteration_idle g tick.env tick.events t tick.seconds (Or.inr hl) fuel]
        simp only [hr] at h1
        simp only [h1, hr]
      · rw [countCall_append, h2]; simp [countCall]

/-! ## Claims -/

/-- The loop read in exact arithmetic has no catch-up cap either: for the running NTSC
session and every candidate cap `C`, a stall of `(C + 1) / 60` seconds makes one iteration
execute more than `C` pacing steps. -/
theorem catchup_cap_absent_exact :
    ¬ ∃ C : Nat, ∀ (timeAdder seconds : ℚ) (fuel : Nat) (r : Iteration),
      loopIteration ntscRunning stubStep [] fuel timeAdder seconds = some r → r.steps ≤ C := by
  rintro ⟨C, hC⟩
  have hw : ntscRunning.wantedFrames = 1 / 60 := rfl
  obtain ⟨r, hr, hsteps, -⟩ := loopIteration_running ntscRunning stubStep [] 0
    (((C + 1 : ℕ) : ℚ) / 60) rfl rfl (by rw [hw]; norm_num) (C + 1)
    (by rw [hw, stepBound_ntsc])
  have hle := hC 0 _ (C + 1) r hr
  rw [hsteps, hw, stepBound_ntsc] at hle
  omega

/-- The loop read in exact arithmetic: one iteration in the running state with a positive
target ends after exactly `⌊(timeAdder + seconds + 0.002) / wantedFrames⌋` pacing steps
(none when that is negative), leaving `timeAdder + seconds - steps * wantedFrames` in the
accumulator.  The binary32 loop of the code departs from this closed form, see
`pacing_determinism_fails32`. -/
theorem catchup_steps_closed_form_exact (g : Glb) (env : Nat → StepEnv) (events : List Nat)
    (timeAdder seconds : ℚ) (hl : g.loaded = true) (hp : g.paused = false)
    (hw : 0 < g.wantedFrames) (fuel : Nat)
    (hf : stepBound g.wantedFrames (timeAdder + seconds) ≤ fuel) :
    ∃ r, loopIteration g env events fuel timeAdder seconds = some r ∧
      r.steps = Int.toNat ⌊(timeAdder + seconds + 1 / 500) / g.wantedFrames⌋ ∧
      r.timeAdder = timeAdder + seconds - r.steps * g.wantedFrames := by
  obtain ⟨r, h1, h2, h3, -⟩ :=
    loopIteration_running g env events timeAdder seconds hl hp hw fuel hf
  exact ⟨r, h1, h2, h3⟩

/-- C6: an iteration in which `paused` is true or `loaded` is false ends without fuel,
makes no pacing step, calls neither `snes_runFrame` nor `playAudio` nor `renderScreen`,
and its only call is the fixed `SDL_Delay(1)`; and as long as no ROM is loaded the whole
loop never calls `snes_runFrame`, whatever the clock samples are. -/
theorem guarded_stepping (g : Glb) (env : Nat → StepEnv) (events : List Nat)
    (timeAdder seconds : ℚ) (fuel : Nat) (h : g.paused = true ∨ g.loaded = false) :
    (∃ r, loopIteration g env events fuel timeAdder seconds = some r ∧
      r.steps = 0 ∧
      countCall Call.snes_runFrame r.calls = 0 ∧
      countCall Call.playAudio r.calls = 0 ∧
      countCall Call.renderScreen r.calls = 0 ∧
      countCall (Call.SDL_Delay 1) r.calls = 1 ∧
      r.calls = [Call.SDL_Delay 1]) ∧
    (g.loaded = false → ∀ ticks : List Tick,
      ∃ run, emulatorLoopFrom fuel g timeAdder ticks = some run ∧
        countCall Call.snes_runFrame run.calls = 0) := by
  refine ⟨⟨_, loopIteration_idle g env events timeAdder seconds h fuel, rfl, ?_, ?_, ?_, ?_,
    rfl⟩, fun hl ticks => emulatorLoopFrom_unloaded fuel ticks g timeAdder hl⟩ <;>
    simp [countCall]

/-- Witness for C6: the freshly initialised state (paused, no ROM) with a one second sample
and no fuel at all. -/
theorem guarded_stepping_witness :
    (∃ r, loopIteration initialised stubStep [] 0 0 1 = some r ∧
      r.steps = 0 ∧
      countCall Call.snes_runFrame r.calls = 0 ∧
      countCall Call.playAudio r.calls = 0 ∧
      countCall Call.renderScreen r.calls = 0 ∧
      countCall (Call.SDL_Delay 1) r.calls = 1 ∧
      r.calls = [Call.SDL_Delay 1]) ∧
    (initialised.loaded = false → ∀ ticks : List Tick,
      ∃ run, emulatorLoopFrom 0 initialised 0 ticks = some run ∧
        countCall Call.snes_runFrame run.calls = 0) :=
  guarded_stepping initialised stubStep [] 0 1 0 (Or.inl rfl)

/-- C4, as stated, fails when the queue holds exactly the ceiling: in the running NTSC
session the ceiling is `800 * 4 * 6 = 19200` bytes, and with `19200` bytes queued
`playAudio` still calls `SDL_QueueAudio` with `3200` bytes, so the queue grows to `22400`. -/
theorem backpressure_at_ceiling_fails :
    audioCeiling ntscRunning = 19200 ∧
    playAudio ntscRunning 19200 =
      [Call.playAudio, Call.snes_setSamples 800, Call.SDL_GetQueuedAudioSize,
        Call.SDL_QueueAudio 3200] ∧
    queueSizeAfter 19200 (playAudio ntscRunning 19200) = 22400 := by
  refine ⟨rfl, ?_, ?_⟩ <;>
    simp [playAudio, ntscRunning, initialised, Glb.zero, queueSizeAfter, queuedBytes]

/-- C4, amended: whenever the queued size exceeds the ceiling `wantedSamples * 4 * 6`,
`playAudio` makes no `SDL_QueueAudio` call and the queue size after it is the size before;
the queue grows again only after it has drained to the ceiling or below. -/
theorem backpressure_above_ceiling (g : Glb) (queued : Nat) (h : audioCeiling g < queued) :
    (∀ len, Call.SDL_QueueAudio len ∉ playAudio g queued) ∧
    queueSizeAfter queued (playAudio g queued) = queued ∧
    (∀ q len, Call.SDL_QueueAudio len ∈ playAudio g q → q ≤ audioCeiling g) := by
  unfold audioCeiling at *
  have h' : ¬ queued ≤ g.wantedSamples * 4 * 6 := Nat.not_le.mpr h
  refine ⟨?_, ?_, ?_⟩
  · unfold playAudio
    split <;> simp [h']
  · unfold playAudio queueSizeAfter
    split <;> simp [h', queuedBytes]
  · intro q len hmem
    by_contra hq
    unfold playAudio at hmem
    split at hmem <;> simp [hq] at hmem

/-- Witness for C4 amended: the running NTSC session with one byte more than the ceiling
in the queue. -/
theorem backpressure_above_ceiling_witness :
    audioCeiling ntscRunning < 19201 ∧
    (∀ len, Call.SDL_QueueAudio len ∉ playAudio ntscRunning 19201) ∧
    queueSizeAfter 19201 (playAudio ntscRunning 19201) = 19201 ∧
    (∀ q len, Call.SDL_QueueAudio len ∈ playAudio ntscRunning q →
      q ≤ audioCeiling ntscRunning) :=
  ⟨by decide, backpressure_above_ceiling ntscRunning 19201 (by decide)⟩

/-- C5: when `texture` and `snes` are non-null and the texture lock succeeds,
`renderScreen` locks the texture, has the core fill the pixels and unlocks the texture;
after that it calls `SDL_RenderClear`, `SDL_RenderCopy`, `SDL_RenderPresent`, in this
order, exactly when `surfaceReady` is true, and none of the three when it is false. -/
theorem present_only_when_ready (g : Glb) (lockResult : Int) (ht : g.texture = true)
    (hs : g.snes = true) (hlock : lockResult = 0) :
    (∃ present, renderScreen g lockResult =
        [Call.renderScreen, Call.SDL_LockTexture, Call.snes_setPixels,
          Call.SDL_UnlockTexture] ++ present ∧
      (g.surfaceReady = true →
        present = [Call.SDL_RenderClear, Call.SDL_RenderCopy, Call.SDL_RenderPresent]) ∧
      (g.surfaceReady = false → present = [])) ∧
    (g.surfaceReady = true ↔
      [Call.SDL_RenderClear, Call.SDL_RenderCopy, Call.SDL_RenderPresent] <:+
        renderScreen g lockResult) ∧
    (g.surfaceReady = false →
      Call.SDL_RenderClear ∉ renderScreen g lockResult ∧
      Call.SDL_RenderCopy ∉ renderScreen g lockResult ∧
      Call.SDL_RenderPresent ∉ renderScreen g lockResult) := by
  subst hlock
  cases hr : g.surfaceReady <;> simp [renderScreen, ht, hs, hr, List.suffix_cons_iff]

/-- Witness for C5: the running NTSC session, whose surface is ready, with a lock that
succeeds. -/
theorem present_only_when_ready_witness :
    (∃ present, renderScreen ntscRunning 0 =
        [Call.renderScreen, Call.SDL_LockTexture, Call.snes_setPixels,
          Call.SDL_UnlockTexture] ++ present ∧
      (ntscRunning.surfaceReady = true →
        present = [Call.SDL_RenderClear, Call.SDL_RenderCopy, Call.SDL_RenderPresent]) ∧
      (ntscRunning.surfaceReady = false → present = [])) ∧
    (ntscRunning.surfaceReady = true ↔
      [Call.SDL_RenderClear, Call.SDL_RenderCopy, Call.SDL_RenderPresent] <:+
        renderScreen ntscRunning 0) ∧
    (ntscRunning.surfaceReady = false →
      Call.SDL_RenderClear ∉ renderScreen ntscRunning 0 ∧
      Call.SDL_RenderCopy ∉ renderScreen ntscRunning 0 ∧
      Call.SDL_RenderPresent ∉ renderScreen ntscRunning 0) :=
  present_only_when_ready ntscRunning 0 rfl rfl rfl

/-! ## ROM loading and the command channel -/

/-- A failed load returns `glb` as it was and starts no thread. -/
theorem loadRomFromPath_fails (env : RomEnv) (g : Glb) (path : String)
    (h : loadFails env path = true) :
    (loadRomFromPath env g path).1 = g ∧
      Call.startThread ∉ (loadRomFromPath env g path).2 := by
  cases hf : readFile env.fs path with
  | none => simp [loadRomFromPath, hf]
  | some file =>
    simp only [loadFails, hf] at h
    cases hl : env.snes_loadRom file with
    | some pal => rw [hl] at h; cases h
    | none =>
      simp only [loadRomFromPath, hf, hl, List.mem_append, not_or, true_and]
      refine ⟨?_, by simp⟩
      unfold closeRom
      split <;> [skip; split <;> [split; skip]] <;> simp

theorem nativeSurfaceChanged_ready (env : InitEnv) (g : Glb) (width height : Int)
    (hwin : g.window = false) (hok : env.succeeds = true) :
    AudioReady (nativeSurfaceChanged env g width height) := by
  simp only [InitEnv.succeeds, Bool.and_eq_true, beq_iff_eq, bne_iff_ne, ne_eq] at hok
  obtain ⟨⟨⟨⟨⟨⟨h1, h2⟩, h3⟩, h4⟩, h5⟩, h6⟩, h7⟩ := hok
  unfold nativeSurfaceChanged AudioReady
  simp only [hwin, h1, h2, h3, h4, h5, h6, h7, Bool.not_false, Bool.not_true, if_true, if_false,
    ne_eq, not_true_eq_false, Bool.false_eq_true]
  exact ⟨trivial, trivial, trivial, Or.inl trivial⟩

theorem loadRomFromPath_ready (env : RomEnv) (g : Glb) (path : String)
    (h : AudioReady g) : AudioReady (loadRomFromPath env g path).1 := by
  obtain ⟨h1, h2, h3, h4⟩ := h
  unfold loadRomFromPath
  cases readFile env.fs path with
  | none => exact ⟨h1, h2, h3, h4⟩
  | some file =>
    dsimp only
    cases env.snes_loadRom file with
    | none => exact ⟨h1, h2, h3, h4⟩
    | some pal =>
      dsimp only [setPaths]
      cases pal <;> cases g.emulatorThread <;>
        simp only [AudioReady, h1, h2, h3, Bool.not_false, Bool.not_true, if_true, if_false,
          Bool.false_eq_true] <;> simp

theorem apply_ready (g : Glb) (c : Command) (h : AudioReady g) :
    AudioReady (c.apply g) := by
  cases c with
  | surfaceChanged env width height =>
    obtain ⟨h1, h2, h3, h4⟩ := h
    simp [Command.apply, nativeSurfaceChanged, AudioReady, h1, h2, h3, h4]
  | loadRom env path =>
    cases path with
    | none => exact h
    | some p => exact loadRomFromPath_ready env g p h
  | resume =>
    obtain ⟨h1, h2, h3, h4⟩ := h
    simp only [Command.apply, nativeResume]
    split <;> exact ⟨h1, h2, h3, h4⟩
  | _ => exact h

theorem runCommands_ready (cmds : List Command) :
    ∀ g : Glb, AudioReady g → AudioReady (runCommands g cmds) := by
  induction cmds with
  | nil => intro g h; exact h
  | cons c cs ih => intro g h; exact ih (c.apply g) (apply_ready g c h)

/-- C8: when `loadRomFromPath` fails (the file cannot be read or `snes_loadRom` returns
`false`), `loaded`, `paused`, `wantedFrames`, `wantedSamples`, `romName`, `savePath` and
`statePath` keep their prior values, indeed all of `glb` does, and the call starts no
emulator thread; a session that was loaded is still loaded. -/
theorem failed_load_preserves_session (env : RomEnv) (g : Glb) (path : String)
    (h : loadFails env path = true) :
    (loadRomFromPath env g path).1.loaded = g.loaded ∧
    (loadRomFromPath env g path).1.paused = g.paused ∧
    (loadRomFromPath env g path).1.wantedFrames = g.wantedFrames ∧
    (loadRomFromPath env g path).1.wantedSamples = g.wantedSamples ∧
    (loadRomFromPath env g path).1.romName = g.romName ∧
    (loadRomFromPath env g path).1.savePath = g.savePath ∧
    (loadRomFromPath env g path).1.statePath = g.statePath ∧
    (loadRomFromPath env g path).1.emulatorThread = g.emulatorThread ∧
    Call.startThread ∉ (loadRomFromPath env g path).2 ∧
    (loadRomFromPath env g path).1 = g ∧
    (g.loaded = true → (loadRomFromPath env g path).1.loaded = true) := by
  obtain ⟨h1, h2⟩ := loadRomFromPath_fails env g path h
  refine ⟨?_, ?_, ?_, ?_, ?_, ?_, ?_, ?_, h2, h1, ?_⟩ <;> rw [h1]
  exact id

/-- Witness for C8: the running NTSC session asked to load a file that the core rejects. -/
theorem failed_load_preserves_session_witness :
    loadFails badRom "game.sfc" = true ∧
    (loadRomFromPath badRom ntscRunning "game.sfc").1.loaded = ntscRunning.loaded ∧
    (loadRomFromPath badRom ntscRunning "game.sfc").1.paused = ntscRunning.paused ∧
    (loadRomFromPath badRom ntscRunning "game.sfc").1.wantedFrames =
      ntscRunning.wantedFrames ∧
    (loadRomFromPath badRom ntscRunning "game.sfc").1.wantedSamples =
      ntscRunning.wantedSamples ∧
    (loadRomFromPath badRom ntscRunning "game.sfc").1.romName = ntscRunning.romName ∧
    (loadRomFromPath badRom ntscRunning "game.sfc").1.savePath = ntscRunning.savePath ∧
    (loadRomFromPath badRom ntscRunning "game.sfc").1.statePath = ntscRunning.statePath ∧
    (loadRomFromPath badRom ntscRunning "game.sfc").1.emulatorThread =
      ntscRunning.emulatorThread ∧
    Call.startThread ∉ (loadRomFromPath badRom ntscRunning "game.sfc").2 ∧
    (loadRomFromPath badRom ntscRunning "game.sfc").1 = ntscRunning ∧
    (ntscRunning.loaded = true →
      (loadRomFromPath badRom ntscRunning "game.sfc").1.loaded = true) :=
  ⟨by simp [loadFails, readFile, badRom],
   failed_load_preserves_session badRom ntscRunning "game.sfc"
     (by simp [loadFails, readFile, badRom])⟩

/-- C10: in every state reached by command-channel operations after a successful
initialisation in `nativeSurfaceChanged`, `audioFrequency` is `48000`, `audioBuffer` holds
`audioFrequency / 50 * 4` bytes and `wantedSamples * 4 <= audioFrequency / 50 * 4`; so the
`wantedSamples` four-byte samples written by `snes_setSamples` and the bytes passed to
`SDL_QueueAudio` in `playAudio` fit the buffer. -/
theorem audio_block_fits (env : InitEnv) (g : Glb) (width height : Int)
    (cmds : List Command) (hwin : g.window = false) (hok : env.succeeds = true) :
    (afterInit env g width height cmds).audioFrequency = 48000 ∧
    (afterInit env g width height cmds).audioBuffer =
      some ((afterInit env g width height cmds).audioFrequency / 50 * 4) ∧
    (afterInit env g width height cmds).wantedSamples * 4 ≤
      (afterInit env g width height cmds).audioFrequency / 50 * 4 ∧
    (∀ queued n, Call.snes_setSamples n ∈ playAudio (afterInit env g width height cmds) queued →
      n * 4 ≤ audioBufferSize (afterInit env g width height cmds)) ∧
    (∀ queued len,
      Call.SDL_QueueAudio len ∈ playAudio (afterInit env g width height cmds) queued →
      len ≤ audioBufferSize (afterInit env g width height cmds)) := by
  obtain ⟨-, h2, h3, h4⟩ := runCommands_ready cmds _
    (nativeSurfaceChanged_ready env g width height hwin hok)
  change (afterInit env g width height cmds).audioFrequency = 48000 at h2
  change (afterInit env g width height cmds).audioBuffer = some 3840 at h3
  change (afterInit env g width height cmds).wantedSamples = 800 ∨
    (afterInit env g width height cmds).wantedSamples = 960 at h4
  generalize afterInit env g width height cmds = s at h2 h3 h4 ⊢
  have hsz : audioBufferSize s = 3840 := by rw [audioBufferSize, h3]; rfl
  have hfit : s.wantedSamples * 4 ≤ 3840 := by rcases h4 with h | h <;> omega
  refine ⟨h2, by rw [h3, h2], by rw [h2]; exact hfit, ?_, ?_⟩
  · intro queued n hmem
    rw [hsz]
    unfold playAudio at hmem
    split at hmem
    · simp at hmem
    · have : n = s.wantedSamples := by
        split at hmem <;> simpa using hmem
      rw [this]; exact hfit
  · intro queued len hmem
    rw [hsz]
    unfold playAudio at hmem
    split at hmem
    · simp at hmem
    · have : len = s.wantedSamples * 4 := by
        split at hmem
        · simpa using hmem
        · simp at hmem
      rw [this]; exact hfit

/-- Witness for C10: initialisation on the bundled SDL, then an NTSC load, a rejected
load, a PAL load and a pause. -/
theorem audio_block_fits_witness :
    Glb.zero.window = false ∧ stubInit.succeeds = true ∧
    (afterInit stubInit Glb.zero 512 480
      [Command.loadRom ntscRom (some "game.sfc"), Command.loadRom badRom (some "game.sfc"),
        Command.loadRom palRom (some "game.sfc"), Command.pause]).wantedSamples * 4 ≤
      (afterInit stubInit Glb.zero 512 480
        [Command.loadRom ntscRom (some "game.sfc"), Command.loadRom badRom (some "game.sfc"),
          Command.loadRom palRom (some "game.sfc"), Command.pause]).audioFrequency / 50 * 4 :=
  ⟨rfl, rfl, (audio_block_fits stubInit Glb.zero 512 480
      [Command.loadRom ntscRom (some "game.sfc"), Command.loadRom badRom (some "game.sfc"),
        Command.loadRom palRom (some "game.sfc"), Command.pause] rfl rfl).2.2.1⟩

/-! ## Several iterations -/

theorem stepBound_le (w t : ℚ) (hw : 0 < w) (fuel : Nat)
    (h : t - fuel * w < w - 1 / 500) : stepBound w t ≤ fuel := by
  unfold stepBound
  have hlt : (t + 1 / 500) / w < ((fuel + 1 : ℕ) : ℚ) := by
    rw [div_lt_iff₀ hw]; push_cast; linarith
  have h1 : ⌊(t + 1 / 500) / w⌋ < ((fuel + 1 : ℕ) : ℤ) := by
    rw [Int.floor_lt]; exact_mod_cast hlt
  have h2 : ⌊(t + 1 / 500) / w⌋ ≤ (fuel : ℤ) := by push_cast at h1; omega
  exact Int.toNat_le.mpr h2

theorem pollEvents_no_quit (running : Bool) :
    ∀ events : List Nat, (∀ ty ∈ events, ty ≠ 256) → pollEvents running events = running := by
  intro events
  induction events with
  | nil => intro _; rfl
  | cons ty evs ih =>
    intro h
    have h1 : ty ≠ 256 := h ty (List.mem_cons_self _ _)
    rw [pollEvents, if_neg h1]
    exact ih (fun x hx => h x (List.mem_cons_of_mem _ hx))

theorem emulatorLoopFrom_cons (fuel : Nat) (g : Glb) (t : ℚ) (tick : Tick)
    (rest : List Tick) (r : Iteration) (hr : g.running = true)
    (hi : loopIteration g tick.env tick.events fuel t tick.seconds = some r) :
    emulatorLoopFrom fuel g t (tick :: rest) =
      (emulatorLoopFrom fuel { g with running := r.running } r.timeAdder rest).map fun rr =>
        { timeAdder := rr.timeAdder, running := rr.running,
          stepCounts := r.steps :: rr.stepCounts, calls := r.calls ++ rr.calls } := by
  rw [emulatorLoopFrom]
  simp only [hr, if_true, hi]
  cases emulatorLoopFrom fuel { g with running := r.running } r.timeAdder rest <;> rfl

/-- The loop in the running state, without quit event and with non-negative samples: it
ends when the fuel covers the whole time, and the accumulator is the time fed in minus one
target per pacing step. -/
theorem emulatorLoopFrom_running (fuel : Nat) (w : ℚ) (hw : 0 < w) :
    ∀ (ticks : List Tick) (g : Glb) (t : ℚ),
      g.wantedFrames = w → g.loaded = true → g.paused = false → g.running = true →
      (∀ tick ∈ ticks, ∀ ty ∈ tick.events, ty ≠ 256) →
      (∀ tick ∈ ticks, 0 ≤ tick.seconds) →
      -(1 / 500) ≤ t →
      t + (ticks.map Tick.seconds).sum - fuel * w < w - 1 / 500 →
      ∃ run, emulatorLoopFrom fuel g t ticks = some run ∧
        run.timeAdder = t + (ticks.map Tick.seconds).sum - (run.stepCounts.sum : ℕ) * w ∧
        -(1 / 500) ≤ run.timeAdder ∧
        (ticks ≠ [] → run.timeAdder < w - 1 / 500) ∧
        run.stepCounts.length = ticks.length := by
  intro ticks
  induction ticks with
  | nil =>
    intro g t _ _ _ _ _ _ ht _
    exact ⟨{ timeAdder := t, running := g.running, stepCounts := [], calls := [] }, rfl,
      by simp, ht, fun h => absurd rfl h, rfl⟩
  | cons tick rest ih =>
    intro g t hgw hl hp hr hq hs ht hfuel
    have hs0 : 0 ≤ tick.seconds := hs tick (List.mem_cons_self _ _)
    have hrest : 0 ≤ (rest.map Tick.seconds).sum :=
      List.sum_nonneg (fun x hx => by
        obtain ⟨tk, htk, rfl⟩ := List.mem_map.mp hx
        exact hs tk (List.mem_cons_of_mem _ htk))
    simp only [List.map_cons, List.sum_cons] at hfuel ⊢
    obtain ⟨r, hi, -, h3, h4, h5, h6, -⟩ :=
      loopIteration_running g tick.env tick.events t tick.seconds hl hp (hgw ▸ hw) fuel
        (stepBound_le _ _ (hgw ▸ hw) fuel (by rw [hgw]; linarith))
    rw [hgw] at h3 h4
    rw [pollEvents_no_quit _ _ (hq tick (List.mem_cons_self _ _)), hr] at h6
    have hk : 0 ≤ (r.steps : ℚ) * w := mul_nonneg (Nat.cast_nonneg _) hw.le
    have ht' : -(1 / 500) ≤ r.timeAdder := by
      rcases Nat.eq_zero_or_pos r.steps with h0 | h0
      · rw [h3, h0]; simp only [Nat.cast_zero, zero_mul, sub_zero]; linarith
      · exact h5 h0
    obtain ⟨rr, hrr, e1, e2, e3, e4⟩ := ih { g with running := r.running } r.timeAdder
      hgw hl hp h6 (fun x hx => hq x (List.mem_cons_of_mem _ hx))
      (fun x hx => hs x (List.mem_cons_of_mem _ hx)) ht' (by rw [h3]; linarith)
    refine ⟨{ timeAdder := rr.timeAdder, running := rr.running,
              stepCounts := r.steps :: rr.stepCounts, calls := r.calls ++ rr.calls },
      by rw [emulatorLoopFrom_cons fuel g t tick rest r hr hi, hrr]; rfl, ?_, e2, ?_, ?_⟩
    · simp only [List.sum_cons, e1, h3]; push_cast; ring
    · intro _
      rcases rest with _ | ⟨tk, rest'⟩
      · simp only [emulatorLoopFrom, Option.some.injEq] at hrr
        rw [← hrr]; exact h4
      · exact e3 (List.cons_ne_nil _ _)
    · simp [e4]

/-- The loop read in exact arithmetic, with target `1/60` or `1/50`, slack `0.002`, the
accumulator starting at `0` and the session loaded, not paused and running throughout (no
quit event): for every `N` and every sequence of non-negative elapsed samples whose sum is
exactly `N * wantedFrames`, the loop ends (fuel `N` is enough for every iteration) and the
pacing step counts of its iterations add up to exactly `N`, however the time is split.  The
binary32 loop of the code does not have this property in general, see
`pacing_determinism_fails32`. -/
theorem pacing_determinism_exact (g : Glb) (ticks : List Tick) (N fuel : Nat)
    (hT : g.wantedFrames = 1 / 60 ∨ g.wantedFrames = 1 / 50)
    (hl : g.loaded = true) (hp : g.paused = false) (hr : g.running = true)
    (hq : ∀ tick ∈ ticks, ∀ ty ∈ tick.events, ty ≠ 256)
    (hs : ∀ tick ∈ ticks, 0 ≤ tick.seconds)
    (hsum : (ticks.map Tick.seconds).sum = N * g.wantedFrames)
    (hf : N ≤ fuel) :
    ∃ run, emulatorLoop fuel g ticks = some run ∧
      run.stepCounts.sum = N ∧ run.stepCounts.length = ticks.length := by
  have hw : (1 : ℚ) / 50 ≥ g.wantedFrames ∧ (1 : ℚ) / 60 ≤ g.wantedFrames := by
    rcases hT with h | h <;> rw [h] <;> constructor <;> norm_num
  have hpos : 0 < g.wantedFrames := by linarith [hw.2]
  have hfq : (N : ℚ) ≤ fuel := by exact_mod_cast hf
  have hfw : (N : ℚ) * g.wantedFrames ≤ fuel * g.wantedFrames :=
    mul_le_mul_of_nonneg_right hfq hpos.le
  obtain ⟨run, h1, h2, h3, h4, h5⟩ := emulatorLoopFrom_running fuel g.wantedFrames hpos
    ticks g 0 rfl hl hp hr hq hs (by norm_num) (by rw [hsum]; linarith [hw.2])
  refine ⟨run, h1, ?_, h5⟩
  rw [hsum, zero_add] at h2
  have hup : ((run.stepCounts.sum : ℕ) : ℚ) < N + 1 := by
    by_contra hc
    have hc' : (N : ℚ) + 1 ≤ (run.stepCounts.sum : ℕ) := not_lt.mp hc
    have := mul_le_mul_of_nonneg_right hc' hpos.le
    rw [h2] at h3
    linarith [hw.1, hw.2]
  have hlow : (N : ℚ) < (run.stepCounts.sum : ℕ) + 1 := by
    rcases ticks with _ | ⟨tick, rest⟩
    · simp only [List.map_nil, List.sum_nil] at hsum
      have hN : (N : ℚ) = 0 := by
        rcases mul_eq_zero.mp hsum.symm with h | h
        · exact h
        · exact absurd h hpos.ne'
      rw [hN]
      have : (0 : ℚ) ≤ (run.stepCounts.sum : ℕ) := Nat.cast_nonneg _
      linarith
    · have h4' := h4 (List.cons_ne_nil _ _)
      by_contra hc
      have hc' : ((run.stepCounts.sum : ℕ) : ℚ) + 1 ≤ N := not_lt.mp hc
      have := mul_le_mul_of_nonneg_right hc' hpos.le
      rw [h2] at h4'
      linarith
  have a : run.stepCounts.sum < N + 1 := by exact_mod_cast hup
  have b : N < run.stepCounts.sum + 1 := by exact_mod_cast hlow
  omega

/-- An iteration at 60 Hz whose accumulated time lies within one frame of the threshold
makes exactly one pacing step. -/
theorem loopIteration_one_step (g : Glb) (env : Nat → StepEnv) (events : List Nat)
    (t s : ℚ) (fuel : Nat) (hT : g.wantedFrames = 1 / 60) (hl : g.loaded = true)
    (hp : g.paused = false) (hf : 1 ≤ fuel) (h1 : 1 / 60 - 1 / 500 ≤ t + s)
    (h2 : t + s < 2 / 60 - 1 / 500) :
    ∃ r, loopIteration g env events fuel t s = some r ∧ r.steps = 1 ∧
      r.timeAdder = t + s - 1 / 60 ∧ r.running = pollEvents g.running events := by
  have hw : 0 < g.wantedFrames := by rw [hT]; norm_num
  have hb : 1 = stepBound g.wantedFrames (t + s) :=
    stepBound_eq _ _ hw 1 (by rw [hT]; push_cast; linarith)
      (fun _ => by rw [hT]; push_cast; linarith)
  obtain ⟨r, a1, a2, a3, -, -, a6, -⟩ :=
    loopIteration_running g env events t s hl hp hw fuel (hb ▸ hf)
  have hk : r.steps = 1 := a2.trans hb.symm
  refine ⟨r, a1, hk, ?_, a6⟩
  rw [a3, hk, hT]; push_cast; ring

/-- C9: in exact arithmetic with target `1/60`, slack `0.002`, the accumulator starting at
`0` and the session loaded, not paused and running, the three elapsed samples `0.0166`,
`0.0166`, `0.0166` give the pacing step counts `1, 1, 1` (total `3`) and leave
`3 * 0.0166 - 3/60 = -0.0002` in the accumulator, below the slack in absolute value. -/
theorem scenario_60hz (g : Glb) (e1 e2 e3 : Nat → StepEnv) (fuel : Nat)
    (hT : g.wantedFrames = 1 / 60) (hl : g.loaded = true) (hp : g.paused = false)
    (hr : g.running = true) (hf : 1 ≤ fuel) :
    ∃ run, emulatorLoop fuel g
        [{ seconds := 166 / 10000, events := [], env := e1 },
         { seconds := 166 / 10000, events := [], env := e2 },
         { seconds := 166 / 10000, events := [], env := e3 }] = some run ∧
      run.stepCounts = [1, 1, 1] ∧ run.stepCounts.sum = 3 ∧
      run.timeAdder = -(2 / 10000) ∧ |run.timeAdder| < 1 / 500 := by
  obtain ⟨r1, a1, a2, a3, a4⟩ := loopIteration_one_step g e1 [] 0 (166 / 10000) fuel
    hT hl hp hf (by norm_num) (by norm_num)
  have hr1 : r1.running = true := a4.trans hr
  obtain ⟨r2, b1, b2, b3, b4⟩ := loopIteration_one_step { g with running := r1.running }
    e2 [] r1.timeAdder (166 / 10000) fuel hT hl hp hf (by rw [a3]; norm_num)
    (by rw [a3]; norm_num)
  have hr2 : r2.running = true := b4.trans hr1
  obtain ⟨r3, c1, c2, c3, c4⟩ := loopIteration_one_step
    { ({ g with running := r1.running } : Glb) with running := r2.running }
    e3 [] r2.timeAdder (166 / 10000) fuel hT hl hp hf (by rw [b3, a3]; norm_num)
    (by rw [b3, a3]; norm_num)
  have hfin : r3.timeAdder = -(2 / 10000) := by rw [c3, b3, a3]; norm_num
  refine ⟨{ timeAdder := r3.timeAdder, running := pollEvents r2.running [],
            stepCounts := [r1.steps, r2.steps, r3.steps],
            calls := r1.calls ++ (r2.calls ++ (r3.calls ++ [])) }, ?_, ?_, ?_, hfin, ?_⟩
  · unfold emulatorLoop
    rw [emulatorLoopFrom_cons fuel g 0 _ _ r1 hr a1,
      emulatorLoopFrom_cons fuel _ r1.timeAdder _ _ r2 hr1 b1,
      emulatorLoopFrom_cons fuel _ r2.timeAdder _ _ r3 hr2 c1]
    simp [emulatorLoopFrom, c4]
  · simp [a2, b2, c2]
  · simp [a2, b2, c2]
  · simp only [hfin]; rw [abs_lt]; constructor <;> norm_num

/-- Witness for C9: the running NTSC session on the bundled SDL, with fuel `1`. -/
theorem scenario_60hz_witness :
    ∃ run, emulatorLoop 1 ntscRunning
        [{ seconds := 166 / 10000, events := [], env := stubStep },
         { seconds := 166 / 10000, events := [], env := stubStep },
         { seconds := 166 / 10000, events := [], env := stubStep }] = some run ∧
      run.stepCounts = [1, 1, 1] ∧ run.stepCounts.sum = 3 ∧
      run.timeAdder = -(2 / 10000) ∧ |run.timeAdder| < 1 / 500 :=
  scenario_60hz ntscRunning stubStep stubStep stubStep 1 rfl rfl rfl rfl (le_refl 1)

/-! ## Time accumulated while paused -/

/-- The loop while paused or without a ROM, with no quit event: every sample is added to the
accumulator, nothing is subtracted and no pacing step is made. -/
theorem emulatorLoopFrom_idle (fuel : Nat) :
    ∀ (ticks : List Tick) (g : Glb) (t : ℚ),
      (g.paused = true ∨ g.loaded = false) → g.running = true →
      (∀ tick ∈ ticks, ∀ ty ∈ tick.events, ty ≠ 256) →
      ∃ run, emulatorLoopFrom fuel g t ticks = some run ∧
        run.timeAdder = t + (ticks.map Tick.seconds).sum ∧
        run.stepCounts.sum = 0 ∧ run.stepCounts.length = ticks.length := by
  intro ticks
  induction ticks with
  | nil =>
    intro g t _ _ _
    exact ⟨{ timeAdder := t, running := g.running, stepCounts := [], calls := [] }, rfl,
      by simp, rfl, rfl⟩
  | cons tick rest ih =>
    intro g t hidle hr hq
    have hi := loopIteration_idle g tick.env tick.events t tick.seconds hidle fuel
    have hrun : pollEvents g.running tick.events = true := by
      rw [pollEvents_no_quit _ _ (hq tick (List.mem_cons_self _ _)), hr]
    obtain ⟨rr, hrr, e1, e2, e3⟩ :=
      ih { g with running := pollEvents g.running tick.events } (t + tick.seconds) hidle hrun
        (fun x hx => hq x (List.mem_cons_of_mem _ hx))
    refine ⟨{ timeAdder := rr.timeAdder, running := rr.running,
              stepCounts := 0 :: rr.stepCounts,
              calls := [Call.SDL_Delay 1] ++ rr.calls }, ?_, ?_, ?_, ?_⟩
    · rw [emulatorLoopFrom_cons fuel g t tick rest _ hr hi, hrr]; rfl
    · simp only [e1, List.map_cons, List.sum_cons]; ring
    · simp [e2]
    · simp [e3]

/-- The loop read in exact arithmetic: an iteration in which `paused` is true or `loaded` is
false leaves the accumulator at its prior value plus the elapsed sample and makes no pacing
step; so after a pause whose samples add up to `D` from accumulator `0` the accumulator is
`D`, and the next iteration with `loaded` true and `paused` false (target
`wantedFrames > 0`, elapsed sample `seconds >= 0`) ends after at least
`floor(D / wantedFrames)` pacing steps.  The binary32 loop of the code departs from this,
see `paused_time_absorbed32`. -/
theorem paused_time_accumulates_exact (g : Glb) (ticks : List Tick) (fuel : Nat)
    (resumed : Glb) (env : Nat → StepEnv) (events : List Nat) (seconds : ℚ)
    (hidle : g.paused = true ∨ g.loaded = false) (hr : g.running = true)
    (hq : ∀ tick ∈ ticks, ∀ ty ∈ tick.events, ty ≠ 256)
    (hl : resumed.loaded = true) (hp : resumed.paused = false)
    (hw : 0 < resumed.wantedFrames) (hs : 0 ≤ seconds)
    (hf : stepBound resumed.wantedFrames ((ticks.map Tick.seconds).sum + seconds) ≤ fuel) :
    (∀ (e : Nat → StepEnv) (evs : List Nat) (timeAdder sample : ℚ),
      ∃ r, loopIteration g e evs fuel timeAdder sample = some r ∧
        r.timeAdder = timeAdder + sample ∧ r.steps = 0) ∧
    ∃ run, emulatorLoop fuel g ticks = some run ∧
      run.timeAdder = (ticks.map Tick.seconds).sum ∧ run.stepCounts.sum = 0 ∧
      ∃ r, loopIteration resumed env events fuel run.timeAdder seconds = some r ∧
        ⌊(ticks.map Tick.seconds).sum / resumed.wantedFrames⌋ ≤ (r.steps : ℤ) := by
  refine ⟨fun e evs timeAdder sample =>
    ⟨_, loopIteration_idle g e evs timeAdder sample hidle fuel, rfl, rfl⟩, ?_⟩
  obtain ⟨run, h1, h2, h3, -⟩ := emulatorLoopFrom_idle fuel ticks g 0 hidle hr hq
  rw [zero_add] at h2
  refine ⟨run, h1, h2, h3, ?_⟩
  rw [h2]
  obtain ⟨r, a1, a2, -⟩ := loopIteration_running resumed env events
    ((ticks.map Tick.seconds).sum) seconds hl hp hw fuel hf
  refine ⟨r, a1, ?_⟩
  rw [a2]
  unfold stepBound
  have hmono : ⌊(ticks.map Tick.seconds).sum / resumed.wantedFrames⌋ ≤
      ⌊((ticks.map Tick.seconds).sum + seconds + 1 / 500) / resumed.wantedFrames⌋ := by
    apply Int.floor_mono
    apply div_le_div_of_nonneg_right _ hw.le
    linarith
  exact le_trans hmono (Int.self_le_toNat _)

/-! ## Rounding error of binary32 operations -/

set_option maxRecDepth 1000000 in
theorem wantedFrames32_ntsc (g : Glb) (h : g.wantedFrames = 1 / 60) :
    wantedFrames32 g = 8947849 * 2 ^ 120 := by
  unfold wantedFrames32; rw [h]; decide!

set_option maxRecDepth 1000000 in
theorem wantedFrames32_pal (g : Glb) (h : g.wantedFrames = 1 / 50) :
    wantedFrames32 g = 10737418 * 2 ^ 120 := by
  unfold wantedFrames32; rw [h]; decide!

theorem pacingLoop32_exit (g : Glb) (env : Nat → StepEnv) (fuel i : Nat) (t : ℤ)
    (h : ¬ threshold64 (wantedFrames32 g) ≤ t * 2 ^ 925) :
    pacingLoop32 g env fuel i t = some { timeAdder := t, steps := 0, calls := [] } := by
  unfold pacingLoop32
  rw [if_neg h]

theorem pacingLoop32_step (g : Glb) (env : Nat → StepEnv) (fuel i : Nat) (t : ℤ)
    (h : threshold64 (wantedFrames32 g) ≤ t * 2 ^ 925) :
    pacingLoop32 g env (fuel + 1) i t =
      (pacingLoop32 g env fuel (i + 1) (f32Sub t (wantedFrames32 g))).map fun r =>
        { timeAdder := r.timeAdder, steps := r.steps + 1,
          calls := stepCalls g (env i) ++ r.calls } := by
  rw [pacingLoop32]
  rw [if_pos h]
  cases pacingLoop32 g env fuel (i + 1) (f32Sub t (wantedFrames32 g)) <;> rfl

theorem pacingLoop32_zero (g : Glb) (env : Nat → StepEnv) (i : Nat) (t : ℤ)
    (h : threshold64 (wantedFrames32 g) ≤ t * 2 ^ 925) : pacingLoop32 g env 0 i t = none := by
  rw [pacingLoop32, if_pos h]

/-- What a finished inner loop leaves behind, in the arithmetic of the code: the accumulator
is below the threshold, it is the result of `steps` float subtractions, and it was at or
above the threshold before each of them. -/
theorem pacingLoop32_sound (g : Glb) (env : Nat → StepEnv) :
    ∀ (fuel i : Nat) (t : ℤ) (r : Pacing32), pacingLoop32 g env fuel i t = some r →
      r.timeAdder * 2 ^ 925 < threshold64 (wantedFrames32 g) ∧
      r.timeAdder = (fun x => f32Sub x (wantedFrames32 g))^[r.steps] t ∧
      (∀ j < r.steps, threshold64 (wantedFrames32 g) ≤
        ((fun x => f32Sub x (wantedFrames32 g))^[j] t) * 2 ^ 925) ∧
      r.steps ≤ fuel ∧
      r.calls = (List.range r.steps).flatMap (fun k => stepCalls g (env (i + k))) := by
  intro fuel
  induction fuel with
  | zero =>
    intro i t r h
    by_cases hc : threshold64 (wantedFrames32 g) ≤ t * 2 ^ 925
    · rw [pacingLoop32_zero g env i t hc] at h; cases h
    · rw [pacingLoop32_exit g env 0 i t hc] at h
      cases h
      exact ⟨lt_of_not_ge hc, rfl, fun j hj => absurd hj (Nat.not_lt_zero j), le_refl 0,
        by simp⟩
  | succ fuel ih =>
    intro i t r h
    by_cases hc : threshold64 (wantedFrames32 g) ≤ t * 2 ^ 925
    · rw [pacingLoop32_step g env fuel i t hc] at h
      cases hr : pacingLoop32 g env fuel (i + 1) (f32Sub t (wantedFrames32 g)) with
      | none => rw [hr] at h; cases h
      | some r1 =>
        rw [hr] at h
        simp only [Option.map_some'] at h
        cases h
        obtain ⟨h1, h2, h3, h4, h5⟩ := ih (i + 1) _ r1 hr
        refine ⟨h1, ?_, ?_, by simpa using h4, ?_⟩
        · simp only [Function.iterate_succ, Function.comp_apply]
          exact h2
        · intro j hj
          cases j with
          | zero => exact hc
          | succ j =>
            simp only [Function.iterate_succ, Function.comp_apply]
            exact h3 j (by simpa using hj)
        · simp only [h5, List.range_succ_eq_map, List.flatMap_cons, List.flatMap_map]
          simp [Function.comp_def, Nat.add_assoc, Nat.add_comm 1]
    · rw [pacingLoop32_exit g env _ i t hc] at h
      cases h
      exact ⟨lt_of_not_ge hc, rfl, fun j hj => absurd hj (Nat.not_lt_zero j), Nat.zero_le _,
        by simp⟩

set_option maxRecDepth 1000000 in
/-- At `2^20` seconds the float subtraction of the frame time no longer changes the
accumulator, for both timing standards. -/
theorem f32Sub_absorbed :
    f32Sub (2 ^ 169) (8947849 * 2 ^ 120) = 2 ^ 169 ∧
    f32Sub (2 ^ 169) (10737418 * 2 ^ 120) = 2 ^ 169 ∧
    f32Add 0 (2 ^ 169) = 2 ^ 169 ∧
    threshold64 (8947849 * 2 ^ 120) ≤ 2 ^ 169 * 2 ^ 925 ∧
    threshold64 (10737418 * 2 ^ 120) ≤ 2 ^ 169 * 2 ^ 925 := by
  decide!

/-- With `2^20` seconds in the accumulator the inner loop does not end, whatever the fuel. -/
theorem pacingLoop32_endless (g : Glb) (env : Nat → StepEnv)
    (hT : g.wantedFrames = 1 / 60 ∨ g.wantedFrames = 1 / 50) :
    ∀ (fuel i : Nat), pacingLoop32 g env fuel i (2 ^ 169) = none := by
  obtain ⟨a1, a2, -, a4, a5⟩ := f32Sub_absorbed
  have hw : (wantedFrames32 g = 8947849 * 2 ^ 120 ∨ wantedFrames32 g = 10737418 * 2 ^ 120) := by
    rcases hT with h | h
    · exact Or.inl (wantedFrames32_ntsc g h)
    · exact Or.inr (wantedFrames32_pal g h)
  have hc : threshold64 (wantedFrames32 g) ≤ 2 ^ 169 * 2 ^ 925 := by
    rcases hw with h | h
    · rw [h]; exact a4
    · rw [h]; exact a5
  have hs : f32Sub (2 ^ 169) (wantedFrames32 g) = 2 ^ 169 := by
    rcases hw with h | h
    · rw [h]; exact a1
    · rw [h]; exact a2
  intro fuel
  induction fuel with
  | zero => intro i; exact pacingLoop32_zero g env i _ hc
  | succ fuel ih =>
    intro i
    rw [pacingLoop32_step g env fuel i _ hc, hs, ih (i + 1)]
    rfl

/-- After a stall of `2^20` seconds an iteration in the running state does not end within
any number of pacing steps. -/
theorem loopIteration32_endless (g : Glb) (env : Nat → StepEnv) (events : List Nat)
    (hT : g.wantedFrames = 1 / 60 ∨ g.wantedFrames = 1 / 50) (hl : g.loaded = true)
    (hp : g.paused = false) (fuel : Nat) :
    loopIteration32 g env events fuel 0 (2 ^ 169) = none := by
  obtain ⟨-, -, a3, -, -⟩ := f32Sub_absorbed
  simp only [loopIteration32, hl, hp, a3, pacingLoop32_endless g env hT fuel 0]
  rfl

/-- What a finished iteration in the running state leaves behind, in binary32. -/
theorem loopIteration32_sound (g : Glb) (env : Nat → StepEnv) (events : List Nat)
    (fuel : Nat) (t s : ℤ) (r : Iteration32) (hl : g.loaded = true) (hp : g.paused = false)
    (h : loopIteration32 g env events fuel t s = some r) :
    r.timeAdder * 2 ^ 925 < threshold64 (wantedFrames32 g) ∧
    r.timeAdder = (fun x => f32Sub x (wantedFrames32 g))^[r.steps] (f32Add t s) ∧
    (∀ j < r.steps, threshold64 (wantedFrames32 g) ≤
      ((fun x => f32Sub x (wantedFrames32 g))^[j] (f32Add t s)) * 2 ^ 925) ∧
    r.steps ≤ fuel := by
  simp only [loopIteration32, hl, hp, Bool.not_false, Bool.and_self, if_true] at h
  cases hpl : pacingLoop32 g env fuel 0 (f32Add t s) with
  | none => rw [hpl] at h; cases h
  | some p =>
    rw [hpl] at h
    simp only [Option.some.injEq] at h
    obtain ⟨h1, h2, h3, h4, -⟩ := pacingLoop32_sound g env fuel 0 _ p hpl
    rw [← h]
    exact ⟨h1, h2, h3, h4⟩

/-- C1, as stated, fails: the loop has no catch-up cap.  In the running NTSC session, after
an elapsed-time sample of `2^20` seconds the float subtraction `timeAdder -= wantedFrames`
leaves `timeAdder` unchanged, so for every candidate cap `C` the iteration has not ended
after `C` pacing steps. -/
theorem catchup_cap_absent32 :
    ¬ ∃ C : Nat, ∀ (timeAdder seconds : ℤ),
      ∃ r, loopIteration32 ntscRunning stubStep [] C timeAdder seconds = some r ∧
        r.steps ≤ C := by
  rintro ⟨C, hC⟩
  obtain ⟨r, hr, -⟩ := hC 0 (2 ^ 169)
  rw [loopIteration32_endless ntscRunning stubStep [] (Or.inl rfl) rfl rfl C] at hr
  cases hr

/-- C1, amended: there is no fixed cap.  An iteration with `loaded` true and `paused` false
makes a pacing step whenever `timeAdder >= wantedFrames - 0.002` and stops only below that
threshold: when it ends after `k` steps, `timeAdder` is the result of `k` float subtractions
of `wantedFrames`, it was at or above the threshold before each of them and is below it
afterwards.  The number of steps is not bounded by a constant: with the target `1/60` or
`1/50`, for every `C` there is an elapsed-time sample after which the iteration is not over
within `C` steps. -/
theorem catchup_until_below_threshold (g : Glb) (env : Nat → StepEnv) (events : List Nat)
    (fuel : Nat) (timeAdder seconds : ℤ) (r : Iteration32)
    (hT : g.wantedFrames = 1 / 60 ∨ g.wantedFrames = 1 / 50)
    (hl : g.loaded = true) (hp : g.paused = false)
    (h : loopIteration32 g env events fuel timeAdder seconds = some r) :
    r.timeAdder * 2 ^ 925 < threshold64 (wantedFrames32 g) ∧
    r.timeAdder =
      (fun x => f32Sub x (wantedFrames32 g))^[r.steps] (f32Add timeAdder seconds) ∧
    (∀ j < r.steps, threshold64 (wantedFrames32 g) ≤
      ((fun x => f32Sub x (wantedFrames32 g))^[j] (f32Add timeAdder seconds)) * 2 ^ 925) ∧
    (∀ C : Nat, ∃ acc stall : ℤ, loopIteration32 g env events C acc stall = none) := by
  obtain ⟨h1, h2, h3, -⟩ := loopIteration32_sound g env events fuel timeAdder seconds r hl hp h
  exact ⟨h1, h2, h3, fun C => ⟨0, 2 ^ 169, loopIteration32_endless g env events hT hl hp C⟩⟩

set_option maxRecDepth 1000000 in
/-- Witness for C1 amended: the running NTSC session fed one frame time makes one pacing
step and leaves the accumulator empty. -/
theorem catchup_until_below_threshold_witness :
    loopIteration32 ntscRunning stubStep [] 5 0 (f32OfRat (1 / 60)) = some oneFrameIteration ∧
    (oneFrameIteration.timeAdder * 2 ^ 925 < threshold64 (wantedFrames32 ntscRunning) ∧
    oneFrameIteration.timeAdder =
      (fun x => f32Sub x (wantedFrames32 ntscRunning))^[oneFrameIteration.steps]
        (f32Add 0 (f32OfRat (1 / 60))) ∧
    (∀ j < oneFrameIteration.steps, threshold64 (wantedFrames32 ntscRunning) ≤
      ((fun x => f32Sub x (wantedFrames32 ntscRunning))^[j]
        (f32Add 0 (f32OfRat (1 / 60)))) * 2 ^ 925) ∧
    (∀ C : Nat, ∃ acc stall : ℤ,
      loopIteration32 ntscRunning stubStep [] C acc stall = none)) :=
  ⟨by decide!, catchup_until_below_threshold ntscRunning stubStep [] 5 0 (f32OfRat (1 / 60))
    oneFrameIteration (Or.inl rfl) rfl rfl (by decide!)⟩

/-- The calls of a finished iteration of the binary32 loop in the running state are the same
per pacing step as in exact arithmetic: the core step(s), `playAudio`, `renderScreen` for
every step in turn, then the delay. -/
theorem loopIteration32_calls (g : Glb) (env : Nat → StepEnv) (events : List Nat)
    (fuel : Nat) (t s : ℤ) (r : Iteration32) (hl : g.loaded = true) (hp : g.paused = false)
    (h : loopIteration32 g env events fuel t s = some r) :
    r.calls = (List.range r.steps).flatMap (fun k => stepCalls g (env k)) ++
        [Call.SDL_Delay 1] ∧
    countCall Call.playAudio r.calls = r.steps ∧
    countCall Call.renderScreen r.calls = r.steps ∧
    countCall Call.snes_runFrame r.calls = r.steps * (if g.fastForward then 2 else 1) := by
  simp only [loopIteration32, hl, hp, Bool.not_false, Bool.and_self, if_true] at h
  cases hpl : pacingLoop32 g env fuel 0 (f32Add t s) with
  | none => rw [hpl] at h; cases h
  | some p =>
    rw [hpl] at h
    simp only [Option.some.injEq] at h
    obtain ⟨-, -, -, -, h5⟩ := pacingLoop32_sound g env fuel 0 _ p hpl
    have hc : r.calls = (List.range r.steps).flatMap (fun k => stepCalls g (env k)) ++
        [Call.SDL_Delay 1] := by
      rw [← h]; simp [h5]
    refine ⟨hc, ?_, ?_, ?_⟩
    · rw [hc, countCall_append, countCall_flatMap_range _ _ 1
        (fun k => countCall_stepCalls_playAudio g (env k))]
      simp [countCall]
    · rw [hc, countCall_append, countCall_flatMap_range _ _ 1
        (fun k => countCall_stepCalls_renderScreen g (env k))]
      simp [countCall]
    · rw [hc, countCall_append, countCall_flatMap_range _ _ (if g.fastForward then 2 else 1)
        (fun k => countCall_stepCalls_runFrame g (env k))]
      simp [countCall]

set_option maxRecDepth 1000000 in
/-- The 60 Hz scenario in binary32: the three samples nearest to `0.0166` give the step
counts `1, 1, 1` and leave `-6711 / 2^25` in the accumulator. -/
theorem scenario_60hz_binary32 :
    (emulatorLoop32 1 ntscRunning
        [sampleTick32 (166 / 10000), sampleTick32 (166 / 10000),
          sampleTick32 (166 / 10000)]).map
      (fun run => (run.stepCounts, run.timeAdder)) = some ([1, 1, 1], -(6711 * 2 ^ 124)) := by
  decide!

end LakeSnes
